import Mathlib

/-!
Shallow embedding of `src/main.rs` of the image-converter repository.

The program converts raster images between JPEG, PNG, WebP and AVIF,
either file-to-file or as a batch sweep over a directory.  The embedding
below mirrors, definition by definition:

* `SupportedFormat` with `from_extension` and `extension`
  (`src/main.rs`, lines 7–34);
* `ImageConverter` with its clamped `quality` field and the dispatch
  structure of `save_image` (lines 36–75);
* the `Path::file_name` / `file_stem` / `extension` component logic of
  the Rust standard library, which the batch loop relies on
  (modelled as `RustPath`);
* `batch_convert` (lines 95–136) as a fold over an abstract directory
  listing, with all file-system effects supplied by a `BatchEnv` oracle
  and all emitted notifications recorded in a `BatchResult` trace;
* the single-file branch of `main` (lines 197–226) as `singleFileMode`.

Rust's `str::to_lowercase` is Unicode-aware; the strings compared by the
program are ASCII, so it is embedded as ASCII lowercasing
(`Char.toLower` character-wise).
-/

set_option autoImplicit false

namespace ImageConv

/-- The closed set of formats the program supports (`enum SupportedFormat`). -/
inductive SupportedFormat where
  | Jpeg
  | Png
  | WebP
  | Avif
deriving DecidableEq, Repr

/-- ASCII lowercasing of a string, embedding `str::to_lowercase` as the
program applies it (all compared strings are ASCII). -/
def strToLowercase (s : String) : String :=
  String.mk (s.data.map Char.toLower)

/-- `SupportedFormat::from_extension` (`src/main.rs` lines 16–24):
lower-cases the input and matches it against the recognized aliases;
any other string yields `Err("Unsupported format: {ext}")` carrying the
original (non-lowercased) input. -/
def SupportedFormat.from_extension (ext : String) : Except String SupportedFormat :=
  if strToLowercase ext = "jpg" ∨ strToLowercase ext = "jpeg" then .ok .Jpeg
  else if strToLowercase ext = "png" then .ok .Png
  else if strToLowercase ext = "webp" then .ok .WebP
  else if strToLowercase ext = "avif" then .ok .Avif
  else .error ("Unsupported format: " ++ ext)

/-- `SupportedFormat::extension` (lines 26–33): the canonical lowercase
extension of each variant. -/
def SupportedFormat.extension : SupportedFormat → String
  | .Jpeg => "jpg"
  | .Png => "png"
  | .WebP => "webp"
  | .Avif => "avif"

/-- `struct ImageConverter { quality: u8 }` (lines 36–38). -/
structure ImageConverter where
  quality : Nat
deriving DecidableEq, Repr

/-- `ImageConverter::new` (lines 41–45): `quality.min(100)` — values above
100 are silently capped to 100. -/
def ImageConverter.new (quality : Nat) : ImageConverter :=
  { quality := min quality 100 }

/-! ### Path component logic

`batch_convert` and `main` use `Path::extension`, `Path::file_stem` and
`Path::file_name`.  For a path whose final component is `name`, Rust
computes the extension as the portion of `name` after its last `.`,
except that there is no extension when `name` has no `.` or when the
only relevant `.` is the leading character (hidden files); the stem is
the complementary portion.  We embed a path by its `file_name`
component, which is all the program ever inspects. -/

/-- Index of the last `.` in a character list, counting from offset `i`. -/
def lastDotIdxFrom : List Char → Nat → Option Nat
  | [], _ => none
  | c :: cs, i =>
    match lastDotIdxFrom cs (i + 1) with
    | some j => some j
    | none => if c = '.' then some i else none

/-- Index of the last `.` in a character list. -/
def lastDotIdx (cs : List Char) : Option Nat :=
  lastDotIdxFrom cs 0

/-- Rust's extension rule on a file-name string: the portion after the
last `.`, unless there is no `.` or the last `.` is the leading
character. -/
def nameExtension (name : String) : Option String :=
  match lastDotIdx name.toList with
  | none => none
  | some 0 => none
  | some i => some (String.mk (name.toList.drop (i + 1)))

/-- Rust's file-stem rule on a file-name string: the portion before the
last `.`, or the whole name when there is no extension-separating `.`. -/
def nameFileStem (name : String) : String :=
  match lastDotIdx name.toList with
  | none => name
  | some 0 => name
  | some i => String.mk (name.toList.take i)

/-- A path, embedded by its `Path::file_name` component (the only part
of a path the program inspects for format decisions and output naming). -/
structure RustPath where
  fileName : Option String
deriving DecidableEq, Repr

/-- `Path::extension`: `None` when there is no file name, otherwise the
extension rule applied to the file name. -/
def RustPath.extension (p : RustPath) : Option String :=
  p.fileName.bind nameExtension

/-- `Path::file_stem`: `None` when there is no file name, otherwise the
stem rule applied to the file name. -/
def RustPath.fileStem (p : RustPath) : Option String :=
  p.fileName.map nameFileStem

/-! ### The save step

`save_image` (lines 53–75) dispatches on the target format: JPEG encodes
into a freshly created output file (`File::create` + `write_to`), while
PNG, WebP and AVIF go through the codec's convenience
`save_with_format` path.  The codec library itself is outside the
repository; the spec describes its contract, so its path-sensitive
behavior is modelled from the spec below (`onDiskLayout`). -/

/-- The codec-level image formats the program mentions. -/
inductive ImageFormat where
  | Jpeg
  | Png
  | WebP
  | Avif
deriving DecidableEq, Repr

/-- The codec format corresponding to each supported format. -/
def SupportedFormat.toImageFormat : SupportedFormat → ImageFormat
  | .Jpeg => .Jpeg
  | .Png => .Png
  | .WebP => .WebP
  | .Avif => .Avif

/-- The codec call `save_image` performs: either create the output file
and encode into that fresh stream with an explicit format (`write_to`),
or hand the output path to the codec's convenience save
(`save_with_format`). -/
inductive SaveAction where
  | createAndWriteTo (fmt : ImageFormat)
  | saveWithFormat (fmt : ImageFormat)
deriving DecidableEq, Repr

/-- `ImageConverter::save_image` (lines 53–75): the codec call chosen
for each target format.  The converter state (`self`) is taken as an
argument exactly as in the source; note that no branch reads
`self.quality` — no quality hint is ever passed to a codec call. -/
def ImageConverter.save_image (_self : ImageConverter) :
    SupportedFormat → SaveAction
  | .Jpeg => .createAndWriteTo .Jpeg
  | .Png => .saveWithFormat .Png
  | .WebP => .saveWithFormat .WebP
  | .Avif => .saveWithFormat .Avif

/-- Modelled from the spec: the external codec's "format inference from
a file path's extension" (spec §6), applied to an extension string. -/
def codecInferFormat (ext : String) : Option ImageFormat :=
  if strToLowercase ext = "jpg" ∨ strToLowercase ext = "jpeg" then some .Jpeg
  else if strToLowercase ext = "png" then some .Png
  else if strToLowercase ext = "webp" then some .WebP
  else if strToLowercase ext = "avif" then some .Avif
  else none

/-- Modelled from the spec: the on-disk file layout produced by a save
action on an output path with the given extension.  The spec states
that for JPEG "the encode writes to a freshly created output file
stream" (layout fixed by the explicit format), while the convenience
"save-with-format" path "infers file layout from the output path's own
extension". -/
def onDiskLayout (act : SaveAction) (outputExt : Option String) :
    Option ImageFormat :=
  match act with
  | .createAndWriteTo fmt => some fmt
  | .saveWithFormat _ => outputExt.bind codecInferFormat

/-! ### Batch conversion

`batch_convert` (lines 95–136) performs directory-level setup, then
folds over the listing of the input directory.  File-system effects are
supplied by a `BatchEnv` oracle: whether the output directory exists and
whether creating it succeeds, the `read_dir` listing (whose items are
themselves `io::Result`s, as in Rust), and the outcome of each
`convert` call.  The fold records, in a `BatchResult`, the running
converted count, every per-file notification the loop prints, and every
`convert` invocation it makes (with the output path it passed). -/

/-- A directory entry as the batch loop sees it: its path and whether
`path.is_file()` holds. -/
structure Entry where
  path : RustPath
  isFile : Bool
deriving DecidableEq, Repr

/-- A per-file notification emitted by the batch loop: `✓ Converted:
{file_name}` on success, `✗ Failed to convert {path}: {e}` on failure. -/
inductive Notification where
  | converted (fileName : String)
  | failed (path : RustPath) (err : String)
deriving DecidableEq, Repr

/-- Whether a notification is a success notification. -/
def Notification.isConverted : Notification → Bool
  | .converted _ => true
  | .failed _ _ => false

/-- The observable outcome of a completed batch run: final converted
count, the emitted notifications in order, and the `convert` calls made
(entry together with the output path passed to `convert`). -/
structure BatchResult where
  count : Nat
  notes : List Notification
  attempts : List (Entry × String)
deriving DecidableEq, Repr

/-- The file-system oracle for one batch run. -/
structure BatchEnv where
  outDirExists : Bool
  createDirOk : Bool
  readDir : Except String (List (Except String Entry))
  conv : Entry → String → Except String Unit

/-- The output path the batch loop derives for an entry:
`output_dir.join(format!("{}.{}", file_stem, target_format.extension()))`
(lines 115–117).  `Option.getD` renders the source's `unwrap` on
`file_stem`, whose argument is proved `some` under the extension guard
(`extension_isSome_fileName_fileStem`). -/
def outputPathFor (outDir : String) (fmt : SupportedFormat) (e : Entry) :
    String :=
  outDir ++ "/" ++ ((e.path.fileStem).getD "" ++ "." ++ fmt.extension)

/-- One iteration of the batch loop body (lines 111–131) on a
successfully read entry: files whose extension parses are converted
(with `convert`'s outcome recorded as a notification and the count
incremented on success); everything else falls through silently. -/
def processEntry (env : BatchEnv) (fmt : SupportedFormat) (outDir : String)
    (acc : BatchResult) (e : Entry) : BatchResult :=
  if e.isFile then
    match e.path.extension with
    | some ext =>
      match SupportedFormat.from_extension ext with
      | .ok _ =>
        let outputPath := outputPathFor outDir fmt e
        match env.conv e outputPath with
        | .ok _ =>
            { count := acc.count + 1
              notes := acc.notes ++ [.converted ((e.path.fileName).getD "")]
              attempts := acc.attempts ++ [(e, outputPath)] }
        | .error err =>
            { count := acc.count
              notes := acc.notes ++ [.failed e.path err]
              attempts := acc.attempts ++ [(e, outputPath)] }
      | .error _ => acc
    | none => acc
  else acc

/-- The batch loop over the listing: a failed entry read (`entry?`)
propagates as an error of the whole run; successfully read entries are
folded through `processEntry`. -/
def runEntries (env : BatchEnv) (fmt : SupportedFormat) (outDir : String) :
    List (Except String Entry) → BatchResult → Except String BatchResult
  | [], acc => .ok acc
  | .error e :: _, _ => .error e
  | .ok ent :: rest, acc =>
      runEntries env fmt outDir rest (processEntry env fmt outDir acc ent)

/-- `ImageConverter::batch_convert` (lines 95–136): create the output
directory if absent (failure is fatal), list the input directory
(failure is fatal), then run the per-file loop. -/
def batch_convert (env : BatchEnv) (fmt : SupportedFormat)
    (outDir : String) : Except String BatchResult :=
  if env.outDirExists = false ∧ env.createDirOk = false then
    .error "create_dir_all failed"
  else
    match env.readDir with
    | .error e => .error e
    | .ok entries => runEntries env fmt outDir entries ⟨0, [], []⟩

/-- An entry is eligible for conversion when it is a regular file whose
extension parses via `SupportedFormat::from_extension`. -/
def eligible (e : Entry) : Prop :=
  e.isFile = true ∧
    ∃ ext, e.path.extension = some ext ∧
      ∃ f, SupportedFormat.from_extension ext = .ok f

/-- Boolean form of `eligible`, used for decidability. -/
def eligibleb (e : Entry) : Bool :=
  e.isFile &&
    (match e.path.extension with
     | some ext =>
       match SupportedFormat.from_extension ext with
       | .ok _ => true
       | .error _ => false
     | none => false)

theorem eligible_iff_eligibleb (e : Entry) : eligible e ↔ eligibleb e = true := by
  constructor
  · rintro ⟨hfile, ext, hext, f, hf⟩
    unfold eligibleb
    rw [hfile, hext]
    simp [hf]
  · intro hb
    unfold eligibleb at hb
    cases hfile : e.isFile with
    | false => rw [hfile] at hb; simp at hb
    | true =>
      rw [hfile] at hb
      cases hext : e.path.extension with
      | none => rw [hext] at hb; simp at hb
      | some ext =>
        rw [hext] at hb
        cases hf : SupportedFormat.from_extension ext with
        | error m => simp [hf] at hb
        | ok f => exact ⟨hfile, ext, hext, f, hf⟩

instance (e : Entry) : Decidable (eligible e) :=
  decidable_of_iff _ (eligible_iff_eligibleb e).symm

/-! ### Single-file mode

The single-file branch of `main` (lines 197–226): it checks that the
input exists, then derives the target format from the output path's
extension, and only then invokes `convert` — the only step that opens,
reads or writes any file (`load_image` opens and decodes the input,
`save_image` creates and writes the output). -/

/-- Outcome of the single-file branch of `main` before any `convert`
call, or the `convert` invocation it proceeds to. -/
inductive SingleOutcome where
  | errInputMissing
  | errNoExtension
  | errUnsupported (msg : String)
  | runConvert (target : SupportedFormat)
deriving DecidableEq, Repr

/-- The single-file branch of `main` (lines 197–226), up to the point
where `convert` — the only file-I/O step — would run. -/
def singleFileMode (inputExists : Bool) (outputPath : RustPath) :
    SingleOutcome :=
  if inputExists = false then .errInputMissing
  else
    match outputPath.extension with
    | some ext =>
      match SupportedFormat.from_extension ext with
      | .ok f => .runConvert f
      | .error e => .errUnsupported e
    | none => .errNoExtension

/-! ### Helper lemmas -/

/-- Whether an `Except` value is a success. -/
def exceptOk {ε α : Type} : Except ε α → Bool
  | .ok _ => true
  | .error _ => false

theorem extension_isSome_fileName_fileStem (p : RustPath)
    (h : (p.extension).isSome = true) :
    (p.fileName).isSome = true ∧ (p.fileStem).isSome = true := by
  cases hf : p.fileName with
  | none =>
    unfold RustPath.extension at h
    rw [hf] at h
    simp [Option.bind] at h
  | some n =>
    refine ⟨rfl, ?_⟩
    unfold RustPath.fileStem
    rw [hf]
    rfl

theorem processEntry_not_eligible (env : BatchEnv) (fmt : SupportedFormat)
    (outDir : String) (acc : BatchResult) (e : Entry) (h : ¬ eligible e) :
    processEntry env fmt outDir acc e = acc := by
  unfold processEntry
  cases hfile : e.isFile with
  | false => simp
  | true =>
    cases hext : e.path.extension with
    | none => simp [hext]
    | some ext =>
      cases hf : SupportedFormat.from_extension ext with
      | error m => simp [hext, hf]
      | ok f => exact absurd ⟨hfile, ext, hext, f, hf⟩ h

theorem processEntry_conv_error (env : BatchEnv) (fmt : SupportedFormat)
    (outDir : String) (acc : BatchResult) (e : Entry) (err : String)
    (helig : eligible e)
    (hconv : env.conv e (outputPathFor outDir fmt e) = .error err) :
    processEntry env fmt outDir acc e =
      { count := acc.count
        notes := acc.notes ++ [.failed e.path err]
        attempts := acc.attempts ++ [(e, outputPathFor outDir fmt e)] } := by
  obtain ⟨hfile, ext, hext, f, hf⟩ := helig
  unfold processEntry
  simp [hfile, hext, hf, hconv]

theorem processEntry_conv_ok (env : BatchEnv) (fmt : SupportedFormat)
    (outDir : String) (acc : BatchResult) (e : Entry)
    (helig : eligible e)
    (hconv : env.conv e (outputPathFor outDir fmt e) = .ok ()) :
    processEntry env fmt outDir acc e =
      { count := acc.count + 1
        notes := acc.notes ++ [.converted ((e.path.fileName).getD "")]
        attempts := acc.attempts ++ [(e, outputPathFor outDir fmt e)] } := by
  obtain ⟨hfile, ext, hext, f, hf⟩ := helig
  unfold processEntry
  simp [hfile, hext, hf, hconv]

theorem runEntries_cons_ok (env : BatchEnv) (fmt : SupportedFormat)
    (outDir : String) (ent : Entry) (rest : List (Except String Entry))
    (acc : BatchResult) :
    runEntries env fmt outDir (.ok ent :: rest) acc =
      runEntries env fmt outDir rest (processEntry env fmt outDir acc ent) :=
  rfl

theorem runEntries_error_iff (env : BatchEnv) (fmt : SupportedFormat)
    (outDir : String) (es : List (Except String Entry)) (acc : BatchResult) :
    (∃ e, runEntries env fmt outDir es acc = .error e) ↔
      (∃ e, Except.error e ∈ es) := by
  induction es generalizing acc with
  | nil => simp [runEntries]
  | cons x rest ih =>
    cases x with
    | error e =>
      constructor
      · intro _; exact ⟨e, List.mem_cons_self _ _⟩
      · intro _; exact ⟨e, rfl⟩
    | ok ent =>
      rw [runEntries_cons_ok, ih]
      constructor
      · rintro ⟨e, he⟩; exact ⟨e, List.mem_cons_of_mem _ he⟩
      · rintro ⟨e, he⟩
        rcases List.mem_cons.mp he with h | h
        · cases h
        · exact ⟨e, h⟩

/-- The per-run accounting invariant: the running count equals both the
number of success notifications and the number of `convert` calls whose
outcome was a success. -/
def accountInv (env : BatchEnv) (r : BatchResult) : Prop :=
  r.count = (r.notes.filter Notification.isConverted).length ∧
  r.count = (r.attempts.filter (fun a => exceptOk (env.conv a.1 a.2))).length

theorem processEntry_account (env : BatchEnv) (fmt : SupportedFormat)
    (outDir : String) (acc : BatchResult) (e : Entry)
    (h : accountInv env acc) :
    accountInv env (processEntry env fmt outDir acc e) := by
  by_cases helig : eligible e
  · cases hconv : env.conv e (outputPathFor outDir fmt e) with
    | ok u =>
      cases u
      rw [processEntry_conv_ok env fmt outDir acc e helig hconv]
      constructor
      · simp [h.1, Notification.isConverted, List.filter_append]
      · simp [h.2, List.filter_append, hconv, exceptOk]
    | error err =>
      rw [processEntry_conv_error env fmt outDir acc e err helig hconv]
      constructor
      · simp [h.1, Notification.isConverted, List.filter_append]
      · simp [h.2, List.filter_append, hconv, exceptOk]
  · rw [processEntry_not_eligible env fmt outDir acc e helig]
    exact h

theorem runEntries_account (env : BatchEnv) (fmt : SupportedFormat)
    (outDir : String) (es : List (Except String Entry)) (acc : BatchResult)
    (r : BatchResult) (hacc : accountInv env acc)
    (hrun : runEntries env fmt outDir es acc = .ok r) :
    accountInv env r := by
  induction es generalizing acc with
  | nil =>
    unfold runEntries at hrun
    cases hrun
    exact hacc
  | cons x rest ih =>
    cases x with
    | error e => cases hrun
    | ok ent =>
      rw [runEntries_cons_ok] at hrun
      exact ih _ (processEntry_account env fmt outDir acc ent hacc) hrun

/-- Every recorded `convert` call targets
`<outDir>/<input-file-stem>.<canonical extension of the target>`. -/
def attemptsNamed (fmt : SupportedFormat) (outDir : String)
    (r : BatchResult) : Prop :=
  ∀ a ∈ r.attempts, ∃ stem, a.1.path.fileStem = some stem ∧
    a.2 = outDir ++ "/" ++ (stem ++ "." ++ fmt.extension)

theorem processEntry_attempts (env : BatchEnv) (fmt : SupportedFormat)
    (outDir : String) (acc : BatchResult) (e : Entry)
    (h : attemptsNamed fmt outDir acc) :
    attemptsNamed fmt outDir (processEntry env fmt outDir acc e) := by
  by_cases helig : eligible e
  · have hsome : ((e.path.extension)).isSome = true := by
      obtain ⟨_, ext, hext, _⟩ := helig
      rw [hext]; rfl
    obtain ⟨stem, hstem⟩ :=
      Option.isSome_iff_exists.mp
        (extension_isSome_fileName_fileStem e.path hsome).2
    have hout : outputPathFor outDir fmt e =
        outDir ++ "/" ++ (stem ++ "." ++ fmt.extension) := by
      unfold outputPathFor
      rw [hstem]
      rfl
    have hnew : ∀ a ∈ acc.attempts ++ [(e, outputPathFor outDir fmt e)],
        ∃ s, a.1.path.fileStem = some s ∧
          a.2 = outDir ++ "/" ++ (s ++ "." ++ fmt.extension) := by
      intro a ha
      rcases List.mem_append.mp ha with ha | ha
      · exact h a ha
      · rcases List.mem_singleton.mp ha with rfl
        exact ⟨stem, hstem, hout⟩
    cases hconv : env.conv e (outputPathFor outDir fmt e) with
    | ok u =>
      cases u
      rw [processEntry_conv_ok env fmt outDir acc e helig hconv]
      exact hnew
    | error err =>
      rw [processEntry_conv_error env fmt outDir acc e err helig hconv]
      exact hnew
  · rw [processEntry_not_eligible env fmt outDir acc e helig]
    exact h

theorem runEntries_attempts (env : BatchEnv) (fmt : SupportedFormat)
    (outDir : String) (es : List (Except String Entry)) (acc : BatchResult)
    (r : BatchResult) (hacc : attemptsNamed fmt outDir acc)
    (hrun : runEntries env fmt outDir es acc = .ok r) :
    attemptsNamed fmt outDir r := by
  induction es generalizing acc with
  | nil =>
    unfold runEntries at hrun
    cases hrun
    exact hacc
  | cons x rest ih =>
    cases x with
    | error e => cases hrun
    | ok ent =>
      rw [runEntries_cons_ok] at hrun
      exact ih _ (processEntry_attempts env fmt outDir acc ent hacc) hrun

theorem runEntries_skip_middle (env : BatchEnv) (fmt : SupportedFormat)
    (outDir : String) (ent : Entry) (h : ¬ eligible ent)
    (es₁ es₂ : List (Except String Entry)) (acc : BatchResult) :
    runEntries env fmt outDir (es₁ ++ .ok ent :: es₂) acc =
      runEntries env fmt outDir (es₁ ++ es₂) acc := by
  induction es₁ generalizing acc with
  | nil =>
    rw [List.nil_append, List.nil_append, runEntries_cons_ok,
      processEntry_not_eligible env fmt outDir acc ent h]
  | cons x rest ih =>
    cases x with
    | error e => rfl
    | ok ent' =>
      rw [List.cons_append, List.cons_append, runEntries_cons_ok,
        runEntries_cons_ok]
      exact ih _

theorem batch_convert_ok_elim (env : BatchEnv) (fmt : SupportedFormat)
    (outDir : String) (r : BatchResult)
    (h : batch_convert env fmt outDir = .ok r) :
    ∃ es, env.readDir = .ok es ∧
      runEntries env fmt outDir es ⟨0, [], []⟩ = .ok r := by
  unfold batch_convert at h
  split at h
  · cases h
  · cases hread : env.readDir with
    | error e => rw [hread] at h; cases h
    | ok es =>
      rw [hread] at h
      exact ⟨es, rfl, h⟩

theorem batch_error_characterization (env : BatchEnv) (fmt : SupportedFormat)
    (outDir : String) :
    (∃ e, batch_convert env fmt outDir = .error e) ↔
      ((env.outDirExists = false ∧ env.createDirOk = false) ∨
        (∃ e, env.readDir = .error e) ∨
        (∃ es, env.readDir = .ok es ∧ ∃ e, Except.error e ∈ es)) := by
  unfold batch_convert
  by_cases hdir : env.outDirExists = false ∧ env.createDirOk = false
  · rw [if_pos hdir]
    constructor
    · intro _; exact Or.inl hdir
    · intro _; exact ⟨"create_dir_all failed", rfl⟩
  · rw [if_neg hdir]
    cases hread : env.readDir with
    | error e =>
      constructor
      · intro _; exact Or.inr (Or.inl ⟨e, rfl⟩)
      · intro _; exact ⟨e, rfl⟩
    | ok es =>
      constructor
      · intro hex
        have hex' : ∃ e, runEntries env fmt outDir es ⟨0, [], []⟩ = .error e := hex
        exact Or.inr (Or.inr
          ⟨es, rfl, (runEntries_error_iff env fmt outDir es ⟨0, [], []⟩).mp hex'⟩)
      · rintro (h | ⟨e, he⟩ | ⟨es', hes', e, he⟩)
        · exact absurd h hdir
        · cases he
        · cases hes'
          exact (runEntries_error_iff env fmt outDir es ⟨0, [], []⟩).mpr ⟨e, he⟩

/-! ### The claims -/

/-- C1: a single file's `convert` failure never terminates a batch run —
the loop records the per-file failure notification and continues with
the next entry — and the run returns an error exactly when a
directory-level failure occurs: the output directory cannot be created,
or the input directory listing fails (wholesale or on an entry read). -/
theorem batch_single_file_failure_never_aborts (env : BatchEnv)
    (fmt : SupportedFormat) (outDir : String) :
    ((∃ e, batch_convert env fmt outDir = .error e) ↔
      ((env.outDirExists = false ∧ env.createDirOk = false) ∨
        (∃ e, env.readDir = .error e) ∨
        (∃ es, env.readDir = .ok es ∧ ∃ e, Except.error e ∈ es))) ∧
    (∀ (ent : Entry) (rest : List (Except String Entry)) (acc : BatchResult)
        (err : String), eligible ent →
      env.conv ent (outputPathFor outDir fmt ent) = .error err →
      runEntries env fmt outDir (.ok ent :: rest) acc =
        runEntries env fmt outDir rest
          { count := acc.count
            notes := acc.notes ++ [.failed ent.path err]
            attempts := acc.attempts ++ [(ent, outputPathFor outDir fmt ent)] }) := by
  constructor
  · exact batch_error_characterization env fmt outDir
  · intro ent rest acc err helig hconv
    rw [runEntries_cons_ok, processEntry_conv_error env fmt outDir acc ent err helig hconv]

/-- Concrete oracle for the C1 witness: directory setup and listing
succeed, and every `convert` call fails. -/
def envC1 : BatchEnv :=
  ⟨true, true, .ok [.ok ⟨⟨some "a.png"⟩, true⟩], fun _ _ => .error "disk full"⟩

theorem batch_single_file_failure_never_aborts_witness :
    (¬ ∃ e, batch_convert envC1 .WebP "out" = .error e) ∧
    runEntries envC1 .WebP "out" [.ok ⟨⟨some "a.png"⟩, true⟩] ⟨0, [], []⟩ =
      runEntries envC1 .WebP "out" []
        ⟨0, [.failed ⟨some "a.png"⟩ "disk full"],
          [(⟨⟨some "a.png"⟩, true⟩, outputPathFor "out" .WebP ⟨⟨some "a.png"⟩, true⟩)]⟩ := by
  constructor
  · intro hex
    rcases (batch_single_file_failure_never_aborts envC1 .WebP "out").1.mp hex with
      h | ⟨e, he⟩ | ⟨es, hes, e, hmem⟩
    · exact absurd h.1 (by simp [envC1])
    · simp [envC1] at he
    · simp [envC1] at hes
      subst hes
      simp at hmem
  · exact (batch_single_file_failure_never_aborts envC1 .WebP "out").2
      ⟨⟨some "a.png"⟩, true⟩ [] ⟨0, [], []⟩ "disk full" (by decide) rfl

/-- C4: `from_extension` lower-cases its input; it returns JPEG exactly
for the casings of `jpg` and `jpeg`, PNG for `png`, WebP for `webp`,
AVIF for `avif`, and every other string (the empty string included)
yields an `Unsupported format` error carrying the original input. -/
theorem from_extension_parse_spec (s : String) :
    (SupportedFormat.from_extension s = .ok .Jpeg ↔
      (strToLowercase s = "jpg" ∨ strToLowercase s = "jpeg")) ∧
    (SupportedFormat.from_extension s = .ok .Png ↔ strToLowercase s = "png") ∧
    (SupportedFormat.from_extension s = .ok .WebP ↔ strToLowercase s = "webp") ∧
    (SupportedFormat.from_extension s = .ok .Avif ↔ strToLowercase s = "avif") ∧
    (strToLowercase s ≠ "jpg" → strToLowercase s ≠ "jpeg" →
      strToLowercase s ≠ "png" → strToLowercase s ≠ "webp" →
      strToLowercase s ≠ "avif" →
      SupportedFormat.from_extension s = .error ("Unsupported format: " ++ s)) := by
  unfold SupportedFormat.from_extension
  generalize strToLowercase s = l
  split_ifs with h1 h2 h3 h4
  · rcases h1 with rfl | rfl <;> simp
  · subst h2; simp
  · subst h3; simp
  · subst h4; simp
  · exact ⟨iff_of_false (by simp) h1, iff_of_false (by simp) h2,
      iff_of_false (by simp) h3, iff_of_false (by simp) h4,
      fun _ _ _ _ _ => rfl⟩

theorem from_extension_parse_spec_witness :
    SupportedFormat.from_extension "PNG" = .ok .Png ∧
    SupportedFormat.from_extension "Png" = .ok .Png ∧
    SupportedFormat.from_extension "JpEg" = .ok .Jpeg ∧
    SupportedFormat.from_extension "gif" = .error "Unsupported format: gif" ∧
    SupportedFormat.from_extension "" = .error "Unsupported format: " := by
  refine ⟨(from_extension_parse_spec "PNG").2.1.mpr (by decide),
    (from_extension_parse_spec "Png").2.1.mpr (by decide),
    (from_extension_parse_spec "JpEg").1.mpr (Or.inr (by decide)),
    (from_extension_parse_spec "gif").2.2.2.2 (by decide) (by decide) (by decide)
      (by decide) (by decide),
    (from_extension_parse_spec "").2.2.2.2 (by decide) (by decide) (by decide)
      (by decide) (by decide)⟩

/-- C5: a completed batch run's tally equals both the number of success
notifications and the number of `convert` calls that succeeded; a run
over an empty listing (with directory setup succeeding) completes with
tally 0, no notifications and no error. -/
theorem batch_tally_equals_successes :
    (∀ (env : BatchEnv) (fmt : SupportedFormat) (outDir : String)
        (r : BatchResult),
      batch_convert env fmt outDir = .ok r →
        r.count = (r.notes.filter Notification.isConverted).length ∧
        r.count =
          (r.attempts.filter (fun a => exceptOk (env.conv a.1 a.2))).length) ∧
    (∀ (env : BatchEnv) (fmt : SupportedFormat) (outDir : String),
      (env.outDirExists = true ∨ env.createDirOk = true) →
      env.readDir = .ok [] →
      batch_convert env fmt outDir = .ok ⟨0, [], []⟩) := by
  constructor
  · intro env fmt outDir r h
    obtain ⟨es, _, hrun⟩ := batch_convert_ok_elim env fmt outDir r h
    exact runEntries_account env fmt outDir es ⟨0, [], []⟩ r ⟨rfl, rfl⟩ hrun
  · intro env fmt outDir hdir hread
    unfold batch_convert
    have hcond : ¬ (env.outDirExists = false ∧ env.createDirOk = false) := by
      rcases hdir with h | h <;> simp [h]
    rw [if_neg hcond, hread]
    rfl

/-- Concrete oracle for the C5 witness: an empty directory listing. -/
def envC5 : BatchEnv := ⟨true, true, .ok [], fun _ _ => .ok ()⟩

theorem batch_tally_equals_successes_witness :
    batch_convert envC5 .Png "out" = .ok ⟨0, [], []⟩ :=
  batch_tally_equals_successes.2 envC5 .Png "out" (Or.inl rfl) rfl

/-- C2: the save step encodes JPEG into a freshly created output file
stream with the explicit JPEG format (so its on-disk layout is JPEG for
any output path), while PNG, WebP and AVIF go through the
save-with-format path whose on-disk layout — per the spec's codec
contract — is inferred from the output path's own extension; hence for
those targets the layout matches the target format exactly when the
output extension parses to that format. -/
theorem save_image_dispatch_extension_coupling (c : ImageConverter) :
    c.save_image .Jpeg = .createAndWriteTo .Jpeg ∧
    c.save_image .Png = .saveWithFormat .Png ∧
    c.save_image .WebP = .saveWithFormat .WebP ∧
    c.save_image .Avif = .saveWithFormat .Avif ∧
    (∀ ext : Option String, onDiskLayout (c.save_image .Jpeg) ext = some .Jpeg) ∧
    (∀ f : SupportedFormat, f ≠ .Jpeg → ∀ ext : String,
      (onDiskLayout (c.save_image f) (some ext) = some f.toImageFormat ↔
        codecInferFormat ext = some f.toImageFormat)) := by
  refine ⟨rfl, rfl, rfl, rfl, fun ext => rfl, ?_⟩
  intro f hf ext
  cases f with
  | Jpeg => exact absurd rfl hf
  | Png => exact Iff.rfl
  | WebP => exact Iff.rfl
  | Avif => exact Iff.rfl

theorem save_image_dispatch_extension_coupling_witness :
    onDiskLayout ((ImageConverter.new 85).save_image .Png) (some "webp") ≠
      some SupportedFormat.Png.toImageFormat := by
  intro hcontra
  have h := ((save_image_dispatch_extension_coupling
    (ImageConverter.new 85)).2.2.2.2.2 .Png (by decide) "webp").mp hcontra
  exact absurd h (by decide)

/-- C3 (code evaluated at the failing input): the save step never reads
the converter's `quality` field — converters constructed with any two
quality values issue identical codec calls for every target format,
including the lossy ones, so no encoded result can depend on quality. -/
theorem save_image_ignores_quality :
    (∀ (q₁ q₂ : Nat) (f : SupportedFormat),
      (ImageConverter.new q₁).save_image f =
        (ImageConverter.new q₂).save_image f) ∧
    (ImageConverter.new 10).save_image .Jpeg =
      (ImageConverter.new 90).save_image .Jpeg ∧
    (ImageConverter.new 10).save_image .WebP =
      (ImageConverter.new 90).save_image .WebP ∧
    (ImageConverter.new 10).save_image .Avif =
      (ImageConverter.new 90).save_image .Avif :=
  ⟨fun _ _ f => by cases f <;> rfl, rfl, rfl, rfl⟩

/-- C6: every `convert` call a completed batch run makes targets
`<outDir>/<input-file-stem>.<canonical extension of the target format>`,
with the input file's own extension discarded. -/
theorem batch_output_filename_derivation (env : BatchEnv)
    (fmt : SupportedFormat) (outDir : String) (r : BatchResult)
    (h : batch_convert env fmt outDir = .ok r) :
    ∀ a ∈ r.attempts, ∃ stem, a.1.path.fileStem = some stem ∧
      a.2 = outDir ++ "/" ++ (stem ++ "." ++ fmt.extension) := by
  obtain ⟨es, _, hrun⟩ := batch_convert_ok_elim env fmt outDir r h
  exact runEntries_attempts env fmt outDir es ⟨0, [], []⟩ r
    (fun a ha => absurd ha (List.not_mem_nil a)) hrun

/-- Concrete oracle for the C6 witness: one JPEG file, converting to
WebP. -/
def envC6 : BatchEnv :=
  ⟨true, true, .ok [.ok ⟨⟨some "photo.JPG"⟩, true⟩], fun _ _ => .ok ()⟩

theorem batch_output_filename_derivation_witness :
    ∃ stem, (Entry.mk ⟨some "photo.JPG"⟩ true).path.fileStem = some stem ∧
      "out/photo.webp" =
        "out" ++ "/" ++ (stem ++ "." ++ SupportedFormat.WebP.extension) := by
  refine batch_output_filename_derivation envC6 .WebP "out"
    ⟨1, [.converted "photo.JPG"], [(⟨⟨some "photo.JPG"⟩, true⟩, "out/photo.webp")]⟩
    ?_ (⟨⟨some "photo.JPG"⟩, true⟩, "out/photo.webp") (by simp)
  rfl

/-- C7: in single-file mode, an output path with no extension never
reaches the `convert` call — the only step that opens, reads or writes
a file — and when the input-existence check passes the run fails with
precisely the missing-extension validation error. -/
theorem convert_no_extension_pure_validation (inputExists : Bool)
    (p : RustPath) (h : p.extension = none) :
    (∀ f, singleFileMode inputExists p ≠ .runConvert f) ∧
    (inputExists = true → singleFileMode inputExists p = .errNoExtension) := by
  cases inputExists with
  | false =>
    refine ⟨fun f hc => ?_, fun hie => by cases hie⟩
    unfold singleFileMode at hc
    simp at hc
  | true =>
    constructor
    · intro f hc
      unfold singleFileMode at hc
      rw [h] at hc
      simp at hc
    · intro _
      unfold singleFileMode
      rw [h]
      simp

theorem convert_no_extension_pure_validation_witness :
    singleFileMode true ⟨some "output"⟩ = .errNoExtension :=
  (convert_no_extension_pure_validation true ⟨some "output"⟩ rfl).2 rfl

/-- C8: a directory entry that is not a regular file, or whose extension
does not parse, is silently skipped by the batch loop: the loop body
leaves count, notifications and attempted conversions unchanged, and
removing such an entry from the listing leaves the whole run's outcome
unchanged. -/
theorem batch_silently_skips_ineligible (env : BatchEnv)
    (fmt : SupportedFormat) (outDir : String) (ent : Entry)
    (h : ¬ eligible ent) :
    (∀ acc, processEntry env fmt outDir acc ent = acc) ∧
    (∀ (es₁ es₂ : List (Except String Entry)) (acc : BatchResult),
      runEntries env fmt outDir (es₁ ++ .ok ent :: es₂) acc =
        runEntries env fmt outDir (es₁ ++ es₂) acc) :=
  ⟨fun acc => processEntry_not_eligible env fmt outDir acc ent h,
   fun es₁ es₂ acc => runEntries_skip_middle env fmt outDir ent h es₁ es₂ acc⟩

/-- Concrete oracle for the C8 witness. -/
def envC8 : BatchEnv := ⟨true, true, .ok [], fun _ _ => .ok ()⟩

theorem batch_silently_skips_ineligible_witness :
    (processEntry envC8 .Png "out" ⟨0, [], []⟩ ⟨⟨some "notes.txt"⟩, true⟩ =
      ⟨0, [], []⟩) ∧
    (processEntry envC8 .Png "out" ⟨0, [], []⟩ ⟨⟨some "sub.png"⟩, false⟩ =
      ⟨0, [], []⟩) ∧
    runEntries envC8 .Png "out" [.ok ⟨⟨some "notes.txt"⟩, true⟩] ⟨0, [], []⟩ =
      runEntries envC8 .Png "out" [] ⟨0, [], []⟩ := by
  refine ⟨(batch_silently_skips_ineligible envC8 .Png "out"
      ⟨⟨some "notes.txt"⟩, true⟩ ?_).1 ⟨0, [], []⟩,
    (batch_silently_skips_ineligible envC8 .Png "out"
      ⟨⟨some "sub.png"⟩, false⟩ ?_).1 ⟨0, [], []⟩,
    (batch_silently_skips_ineligible envC8 .Png "out"
      ⟨⟨some "notes.txt"⟩, true⟩ ?_).2 [] [] ⟨0, [], []⟩⟩
  · rw [eligible_iff_eligibleb]; decide
  · rw [eligible_iff_eligibleb]; decide
  · rw [eligible_iff_eligibleb]; decide

/-- C9: `ImageConverter::new` clamps quality to at most 100: 150 and 100
construct identical converters, quality 0 is accepted unchanged, and in
general the stored quality is `min(argument, 100)`. -/
theorem new_quality_clamped :
    ImageConverter.new 150 = ImageConverter.new 100 ∧
    (ImageConverter.new 0).quality = 0 ∧
    (∀ q, (ImageConverter.new q).quality = min q 100) ∧
    (∀ q, (ImageConverter.new q).quality ≤ 100) :=
  ⟨rfl, rfl, fun _ => rfl, fun q => min_le_right q 100⟩

/-- C10: whenever a path's `extension()` is `Some`, its `file_stem()`
and `file_name()` are `Some` as well, so the `unwrap` calls the batch
loop performs under its extension guard cannot panic. -/
theorem batch_unwraps_never_panic (p : RustPath)
    (h : (p.extension).isSome = true) :
    (p.fileStem).isSome = true ∧ (p.fileName).isSome = true :=
  ⟨(extension_isSome_fileName_fileStem p h).2,
   (extension_isSome_fileName_fileStem p h).1⟩

theorem batch_unwraps_never_panic_witness :
    ((RustPath.mk (some "photo.png")).fileStem).isSome = true ∧
    ((RustPath.mk (some "photo.png")).fileName).isSome = true :=
  batch_unwraps_never_panic ⟨some "photo.png"⟩ rfl

end ImageConv
